import Mathlib

set_option maxRecDepth 100000

/-!
Verification of the oplog entry module (src/oplog/entry.js) of an
append-only operation log.  The module builds, signs, verifies, encodes and
decodes log entries.  We shallowly embed the JavaScript code: JS values that
can flow through the module are modelled by the inductive type `Value`
(the data model of the canonical codec: null, booleans, integers, strings,
byte strings, arrays and string-keyed maps), JS objects are maps given as
association lists in property-insertion order, and the absent value
`undefined` is modelled by `Option`.  The external canonical codec
(dag-cbor plus a content hash, an external collaborator of the module) is
modelled from the specification contract: a deterministic executable
encoder `encodeValue` with a decoder `decodeBlock` that inverts it, and a
content-hash function `cidOf` of the encoded bytes.  Fallible operations
return `Except EntryError` so that thrown JS errors are explicit values.
-/

namespace Oplog

/-- Model of the values handled by the canonical codec and the entry
module: the JS/IPLD data model restricted to what the module moves around
(null, booleans, integers, strings, byte strings, arrays, objects).
Objects are association lists of properties in insertion order. -/
inductive Value where
  | null
  | bool (b : Bool)
  | int (n : Int)
  | str (s : String)
  | bytes (bs : List Nat)
  | arr (vs : List Value)
  | map (fields : List (String × Value))

mutual

/-- Structural equality of values, modelling the JS strict-equality test
as it is used in the module (it is only ever applied to hash strings; for
primitive values structural equality agrees with JS strict equality). -/
def veq : Value → Value → Bool
  | .null, .null => true
  | .bool a, .bool b => a == b
  | .int a, .int b => a == b
  | .str a, .str b => a == b
  | .bytes a, .bytes b => a == b
  | .arr a, .arr b => veqList a b
  | .map a, .map b => veqFields a b
  | _, _ => false

/-- Structural equality of value lists. -/
def veqList : List Value → List Value → Bool
  | [], [] => true
  | a :: as_, b :: bs_ => veq a b && veqList as_ bs_
  | _, _ => false

/-- Structural equality of property lists. -/
def veqFields : List (String × Value) → List (String × Value) → Bool
  | [], [] => true
  | (k, a) :: as_, (l, b) :: bs_ => k == l && veq a b && veqFields as_ bs_
  | _, _ => false

end

/-- Lookup of an object property: the value stored under the first
occurrence of key `k`, or `none` when the property is absent
(JS `obj[k]` returning `undefined`). -/
def lookupField : List (String × Value) → String → Option Value
  | [], _ => none
  | (k', v) :: fs, k => if k' = k then some v else lookupField fs k

/-- Property assignment `obj[k] = v`: overwrites the value in place when
the key is present (JS keeps the original insertion position) and appends
the property otherwise. -/
def setField : List (String × Value) → String → Value → List (String × Value)
  | [], k, v => [(k, v)]
  | (k', v') :: fs, k, v => if k' = k then (k, v) :: fs else (k', v') :: setField fs k v

/-- Property deletion `delete obj[k]`. -/
def deleteField : List (String × Value) → String → List (String × Value)
  | [], _ => []
  | (k', v) :: fs, k => if k' = k then deleteField fs k else (k', v) :: deleteField fs k

/-- Own enumerable properties of a value, as used by `Object.assign` and
object spread: maps contribute their properties, every other value
contributes none. -/
def copyFields : Value → List (String × Value)
  | .map fs => fs
  | _ => []

/-- Property access on an arbitrary value: `v[k]`, `undefined` (`none`)
when `v` is not an object or lacks the property. -/
def getProp : Value → String → Option Value
  | .map fs, k => lookupField fs k
  | _, _ => none

/-- Truthiness of a JS value: `null`, `false`, `0` and the empty string
are falsy; byte strings, arrays and objects are JS objects and therefore
always truthy. -/
def truthy : Value → Bool
  | .null => false
  | .bool b => b
  | .int n => n != 0
  | .str s => s != ""
  | .bytes _ => true
  | .arr _ => true
  | .map _ => true

/-- Truthiness of a possibly-undefined value (`undefined` is falsy). -/
def truthyOpt : Option Value → Bool
  | none => false
  | some v => truthy v

/-- Test modelling the loose comparison `x == null`, true exactly for
`undefined` and `null`. -/
def isNullish : Option Value → Bool
  | none => true
  | some .null => true
  | some _ => false

/-- Test modelling `Array.isArray`. -/
def Value.isArr : Value → Bool
  | .arr _ => true
  | _ => false

/-- Evaluation of the JS expression `a || b` over possibly-undefined
values: `a` when truthy, otherwise `b`. -/
def orTruthy (a b : Option Value) : Option Value :=
  if truthyOpt a then a else b

/-! ## Canonical codec

Modelled from the spec: the canonical codec (section 4.1, an external
collaborator of the module, `@ipld/dag-cbor` with a sha256 multihash in the
source) is a deterministic value-to-bytes encoding with a decoder that
inverts it and a content hash rendered through one fixed string base.  We
give one concrete executable codec with exactly these properties; bytes
are modelled as `List Nat`. -/

/-- Encoding of a string: its length followed by its character codes. -/
def encodeStr (s : String) : List Nat :=
  s.data.length :: s.data.map Char.toNat

mutual

/-- Deterministic canonical encoding of a value to bytes.  Each value is
tagged with its kind; lists are length-prefixed. -/
def encodeValue : Value → List Nat
  | .null => [0]
  | .bool b => [1, cond b 1 0]
  | .int n => if n < 0 then [2, 1, n.natAbs] else [2, 0, n.natAbs]
  | .str s => 3 :: encodeStr s
  | .bytes bs => 4 :: bs.length :: bs
  | .arr vs => 5 :: vs.length :: encodeValueList vs
  | .map fs => 6 :: fs.length :: encodeFieldList fs

/-- Concatenated encodings of the elements of an array. -/
def encodeValueList : List Value → List Nat
  | [] => []
  | v :: vs => encodeValue v ++ encodeValueList vs

/-- Concatenated encodings of the properties of a map. -/
def encodeFieldList : List (String × Value) → List Nat
  | [] => []
  | (k, v) :: fs => encodeStr k ++ encodeValue v ++ encodeFieldList fs

end

/-- Reading of `n` character codes from the input. -/
def decodeChars : Nat → List Nat → Option (List Char × List Nat)
  | 0, rest => some ([], rest)
  | _ + 1, [] => none
  | n + 1, c :: rest =>
    match decodeChars n rest with
    | some (cs, r) => some (Char.ofNat c :: cs, r)
    | none => none

/-- Reading of a length-prefixed string from the input. -/
def decodeStr : List Nat → Option (String × List Nat)
  | [] => none
  | n :: rest =>
    match decodeChars n rest with
    | some (cs, r) => some (String.mk cs, r)
    | none => none

/-- Reading of `n` raw cells from the input. -/
def takeCells : Nat → List Nat → Option (List Nat × List Nat)
  | 0, rest => some ([], rest)
  | _ + 1, [] => none
  | n + 1, c :: rest =>
    match takeCells n rest with
    | some (cs, r) => some (c :: cs, r)
    | none => none

mutual

/-- Fuelled decoder for a single value, the inverse of `encodeValue`. -/
def decodeV : Nat → List Nat → Option (Value × List Nat)
  | 0, _ => none
  | fuel + 1, input =>
    match input with
    | 0 :: rest => some (.null, rest)
    | 1 :: 0 :: rest => some (.bool false, rest)
    | 1 :: 1 :: rest => some (.bool true, rest)
    | 2 :: 0 :: n :: rest => some (.int (n : Int), rest)
    | 2 :: 1 :: n :: rest => if n = 0 then none else some (.int (-(n : Int)), rest)
    | 3 :: rest =>
      match decodeStr rest with
      | some (s, r) => some (.str s, r)
      | none => none
    | 4 :: n :: rest =>
      match takeCells n rest with
      | some (bs, r) => some (.bytes bs, r)
      | none => none
    | 5 :: n :: rest =>
      match decodeVList fuel n rest with
      | some (vs, r) => some (.arr vs, r)
      | none => none
    | 6 :: n :: rest =>
      match decodeFList fuel n rest with
      | some (fs, r) => some (.map fs, r)
      | none => none
    | _ => none

/-- Fuelled decoder for `n` consecutive values. -/
def decodeVList : Nat → Nat → List Nat → Option (List Value × List Nat)
  | 0, _, _ => none
  | _ + 1, 0, rest => some ([], rest)
  | fuel + 1, n + 1, rest =>
    match decodeV fuel rest with
    | none => none
    | some (v, r1) =>
      match decodeVList fuel n r1 with
      | none => none
      | some (vs, r2) => some (v :: vs, r2)

/-- Fuelled decoder for `n` consecutive key-value properties. -/
def decodeFList : Nat → Nat → List Nat → Option (List (String × Value) × List Nat)
  | 0, _, _ => none
  | _ + 1, 0, rest => some ([], rest)
  | fuel + 1, n + 1, rest =>
    match decodeStr rest with
    | none => none
    | some (k, r1) =>
      match decodeV fuel r1 with
      | none => none
      | some (v, r2) =>
        match decodeFList fuel n r2 with
        | none => none
        | some (fs, r3) => some ((k, v) :: fs, r3)

end

/-- Decoding of a full byte block back to a value (`Block.decode` of the
canonical codec): the whole input must be consumed.  Returns `none` on
bytes that are not a canonical encoding. -/
def decodeBlock (bs : List Nat) : Option Value :=
  match decodeV (bs.length + 1) bs with
  | some (v, []) => some v
  | _ => none

/-- Content hash of a byte block, rendered in the fixed string base
(a deterministic function of exactly the encoded bytes). -/
def cidOf (bs : List Nat) : String :=
  "z" ++ Nat.repr (bs.foldl (fun a b => (a * 31 + b + 1) % 1000000007) 7)

/-! ## External collaborators -/

/-- Modelled from the spec: the identity capability (section 6), external
to the module, exposing a public key, the content id of the identity
record, and a signing function over bytes.  Keys, identity ids and
signatures are strings, as in the entry data model (section 3). -/
structure Identity where
  publicKey : String
  hash : String
  sign : List Nat → String

/-- Modelled from the spec: the identities system used at verification
time, exposing `verify(signature, publicKey, bytes)`.  Signature and key
are passed through from entry properties, hence arbitrary values. -/
structure Identities where
  verify : Value → Value → List Nat → Bool

/-- Errors thrown by the module, one constructor per `throw` site of the
source plus `codecError` for a failure propagated unchanged from the
canonical codec (decoding bytes that are not a canonical encoding). -/
inductive EntryError where
  | identityRequired
  | idRequired
  | payloadRequired
  | nextNotArray
  | identitiesRequired
  | invalidEntry
  | noKey
  | noSig
  | couldNotDecryptEntry
  | couldNotDecryptPayload
  | codecError
deriving DecidableEq

/-! ## The entry module -/

/-- Embedding of `create(identity, id, payload, encryptPayloadFn, clock,
next, refs)`.  The clock provider (`Clock` from clock.js, outside the
sources, modelled from the spec as an opaque constructor keyed by the
public key) is passed explicitly as `cp`.  Parameters that JS callers may
omit or pass as `null` are `Option Value`; the JS defaults `next = []`
and `refs = []` apply exactly when the caller passes `undefined`
(`none`).  `encryptPayloadFn` maps encoded payload bytes to ciphertext
bytes, stored as a byte-string value as a `Uint8Array` would be. -/
def create (cp : String → Value) (identity : Option Identity)
    (id payload : Option Value) (encryptPayloadFn : Option (List Nat → List Nat))
    (clock next refs : Option Value) : Except EntryError Value :=
  match identity with
  | none => .error .identityRequired
  | some ident =>
    if isNullish id then .error .idRequired
    else if isNullish payload then .error .payloadRequired
    else
      let idV := id.getD .null
      let plV := payload.getD .null
      let nextV := next.getD (.arr [])
      let refsV := refs.getD (.arr [])
      if ¬ nextV.isArr then .error .nextNotArray
      else
        let clockV := match clock with
          | some c => if truthy c then c else cp ident.publicKey
          | none => cp ident.publicKey
        let workingPayload := match encryptPayloadFn with
          | some f => Value.bytes (f (encodeValue plV))
          | none => plV
        let entry0 : List (String × Value) :=
          [("id", idV), ("payload", workingPayload), ("next", nextV),
           ("refs", refsV), ("clock", clockV), ("v", .int 2)]
        let bytes := encodeValue (.map entry0)
        let signature := ident.sign bytes
        let fs1 := setField entry0 "key" (.str ident.publicKey)
        let fs2 := setField fs1 "identity" (.str ident.hash)
        let fs3 := setField fs2 "sig" (.str signature)
        let fs4 := setField fs3 "payload" plV
        let fs5 := match encryptPayloadFn with
          | some _ => setField fs4 "_payload" workingPayload
          | none => fs4
        .ok (.map fs5)

/-- Embedding of `isEntry(obj)`: the argument is truthy and the six
properties `id`, `next`, `payload`, `v`, `clock`, `refs` are defined. -/
def isEntry (obj : Option Value) : Bool :=
  match obj with
  | none => false
  | some v =>
    truthy v && (getProp v "id").isSome && (getProp v "next").isSome &&
      (getProp v "payload").isSome && (getProp v "v").isSome &&
      (getProp v "clock").isSome && (getProp v "refs").isSome

/-- Embedding of `isEqual(a, b)`, with the JS result coerced to a
boolean: `a && b && a.hash && a.hash === b.hash`. -/
def isEqual (a b : Option Value) : Bool :=
  match a, b with
  | some av, some bv =>
    truthy av && truthy bv && truthyOpt (getProp av "hash") &&
      (match getProp av "hash", getProp bv "hash" with
       | some ha, some hb => veq ha hb
       | _, _ => false)
  | _, _ => false

/-- Embedding of `verify(identities, entry)`.  The reconstructed signing
snapshot takes the properties in the order of the source object literal;
the six properties are defined because the `isEntry` guard passed, so the
`getD .null` defaults are never used. -/
def verify (identities : Option Identities) (entry : Option Value) :
    Except EntryError Bool :=
  match identities with
  | none => .error .identitiesRequired
  | some ids =>
    if ¬ isEntry entry then .error .invalidEntry
    else
      match entry with
      | none => .error .invalidEntry
      | some ev =>
        if ¬ truthyOpt (getProp ev "key") then .error .noKey
        else if ¬ truthyOpt (getProp ev "sig") then .error .noSig
        else
          let value := Value.map
            [("id", (getProp ev "id").getD .null),
             ("payload",
               (orTruthy (getProp ev "_payload") (getProp ev "payload")).getD .null),
             ("next", (getProp ev "next").getD .null),
             ("refs", (getProp ev "refs").getD .null),
             ("clock", (getProp ev "clock").getD .null),
             ("v", (getProp ev "v").getD .null)]
          let bytes := encodeValue value
          .ok (ids.verify ((getProp ev "sig").getD .null)
            ((getProp ev "key").getD .null) bytes)

/-- Embedding of `decode(bytes, decryptEntryFn, decryptPayloadFn)`.  The
decrypt callbacks are fallible (`none` models a thrown JS error inside a
`try` block).  A decrypt callback applied to an undefined payload
property is modelled as failing, matching a callback that rejects input
outside its bytes-to-bytes contract; no claim depends on this case. -/
def decode (bytes : List Nat) (decryptEntryFn : Option (Value → Option (List Nat)))
    (decryptPayloadFn : Option (Value → Option (List Nat))) :
    Except EntryError Value :=
  let step1 : Except EntryError (List Nat × Option String) :=
    match decryptEntryFn with
    | none => .ok (bytes, none)
    | some df =>
      match decodeBlock bytes with
      | none => .error .couldNotDecryptEntry
      | some v =>
        match df v with
        | none => .error .couldNotDecryptEntry
        | some inner => .ok (inner, some (cidOf bytes))
  match step1 with
  | .error e => .error e
  | .ok (b2, outerHash) =>
    match decodeBlock b2 with
    | none => .error .codecError
    | some entryV =>
      let afterPayload : Except EntryError Value :=
        match decryptPayloadFn with
        | none => .ok entryV
        | some pf =>
          match getProp entryV "payload" with
          | none => .error .couldNotDecryptPayload
          | some cipher =>
            match pf cipher with
            | none => .error .couldNotDecryptPayload
            | some pb =>
              match decodeBlock pb with
              | none => .error .couldNotDecryptPayload
              | some plain =>
                .ok (.map (setField
                  (setField (copyFields entryV) "_payload" cipher) "payload" plain))
      match afterPayload with
      | .error e => .error e
      | .ok e2 =>
        let hashStr := outerHash.getD (cidOf b2)
        .ok (.map (setField (copyFields e2) "hash" (.str hashStr)))

/-- Embedding of `encode(entry, encryptEntryFn, encryptPayloadFn)`.  When
`encryptPayloadFn` is set but the entry has no `_payload` cache, the
source assigns `undefined` to the payload property of the object handed
to the canonical codec; that object is outside the codec value model and
the result is `none` (see the C9 discussion in the results). -/
def encode (entry : Value) (encryptEntryFn encryptPayloadFn : Option (List Nat → List Nat)) :
    Option (String × List Nat) :=
  let fs := copyFields entry
  let fsOpt : Option (List (String × Value)) :=
    match encryptPayloadFn with
    | some _ =>
      match lookupField fs "_payload" with
      | some c => some (setField fs "payload" c)
      | none => none
    | none => some fs
  match fsOpt with
  | none => none
  | some fs1 =>
    let fs2 := deleteField (deleteField fs1 "_payload") "hash"
    let bytes := encodeValue (.map fs2)
    match encryptEntryFn with
    | none => some (cidOf bytes, bytes)
    | some ef =>
      let c := ef bytes
      let bytes2 := encodeValue (.bytes c)
      some (cidOf bytes2, bytes2)

/-! ## Codec correctness -/

mutual

/-- Fuel cost of a value: enough decoder fuel to read it back. -/
def vcost : Value → Nat
  | .arr vs => vcostL vs + 1
  | .map fs => vcostF fs + 1
  | _ => 1

/-- Fuel cost of reading back a list of values. -/
def vcostL : List Value → Nat
  | [] => 1
  | v :: vs => max (vcost v) (vcostL vs) + 1

/-- Fuel cost of reading back a property list. -/
def vcostF : List (String × Value) → Nat
  | [] => 1
  | (_, v) :: fs => max (vcost v) (vcostF fs) + 1

end

theorem one_le_vcost (v : Value) : 1 ≤ vcost v := by
  cases v <;> simp [vcost]

theorem decodeChars_encode (cs : List Char) (rest : List Nat) :
    decodeChars cs.length (cs.map Char.toNat ++ rest) = some (cs, rest) := by
  induction cs with
  | nil => simp [decodeChars]
  | cons c cs ih => simp [decodeChars, ih, Char.ofNat_toNat]

theorem decodeStr_encode (s : String) (rest : List Nat) :
    decodeStr (encodeStr s ++ rest) = some (s, rest) := by
  have h := decodeChars_encode s.data rest
  simp only [encodeStr, List.cons_append, decodeStr, h]

theorem takeCells_append (bs rest : List Nat) :
    takeCells bs.length (bs ++ rest) = some (bs, rest) := by
  induction bs with
  | nil => simp [takeCells]
  | cons b bs ih => simp [takeCells, ih]

mutual

theorem decodeV_encode (v : Value) : ∀ fuel rest, vcost v ≤ fuel →
    decodeV fuel (encodeValue v ++ rest) = some (v, rest) := by
  intro fuel rest h
  have h1 := one_le_vcost v
  obtain ⟨f, rfl⟩ : ∃ f, fuel = f + 1 := ⟨fuel - 1, by omega⟩
  cases v with
  | null => simp [encodeValue, decodeV]
  | bool b => cases b <;> simp [encodeValue, decodeV]
  | int n =>
    rcases lt_or_ge n 0 with hn | hn
    · have hnz : n.natAbs ≠ 0 := by omega
      have he : -((n.natAbs : Int)) = n := by omega
      simp only [encodeValue, if_pos hn, List.cons_append, List.nil_append, decodeV,
        if_neg hnz, he]
    · have hp : ¬ n < 0 := by omega
      have he : ((n.natAbs : Int)) = n := by omega
      simp only [encodeValue, if_neg hp, List.cons_append, List.nil_append, decodeV, he]
  | str s => simp [encodeValue, decodeV, decodeStr_encode]
  | bytes bs => simp [encodeValue, decodeV, takeCells_append]
  | arr vs =>
    have hd : vcostL vs ≤ f := by
      simp [vcost] at h
      omega
    simp [encodeValue, decodeV, decodeVList_encode vs f rest hd]
  | map fs =>
    have hd : vcostF fs ≤ f := by
      simp [vcost] at h
      omega
    simp [encodeValue, decodeV, decodeFList_encode fs f rest hd]

theorem decodeVList_encode (vs : List Value) : ∀ fuel rest, vcostL vs ≤ fuel →
    decodeVList fuel vs.length (encodeValueList vs ++ rest) = some (vs, rest) := by
  intro fuel rest h
  obtain ⟨f, rfl⟩ : ∃ f, fuel = f + 1 := by
    have : 1 ≤ vcostL vs := by cases vs <;> simp [vcostL]
    exact ⟨fuel - 1, by omega⟩
  match vs with
  | [] => simp [encodeValueList, decodeVList]
  | v :: vs =>
    have hv : vcost v ≤ f := by
      simp [vcostL] at h
      omega
    have hvs : vcostL vs ≤ f := by
      simp [vcostL] at h
      omega
    simp [encodeValueList, decodeVList, decodeV_encode v f _ hv,
      decodeVList_encode vs f rest hvs]

theorem decodeFList_encode (fs : List (String × Value)) : ∀ fuel rest, vcostF fs ≤ fuel →
    decodeFList fuel fs.length (encodeFieldList fs ++ rest) = some (fs, rest) := by
  intro fuel rest h
  obtain ⟨f, rfl⟩ : ∃ f, fuel = f + 1 := by
    have : 1 ≤ vcostF fs := by
      cases fs with
      | nil => simp [vcostF]
      | cons kv fs => cases kv; simp [vcostF]
    exact ⟨fuel - 1, by omega⟩
  match fs with
  | [] => simp [encodeFieldList, decodeFList]
  | (k, v) :: fs =>
    have hv : vcost v ≤ f := by
      simp [vcostF] at h
      omega
    have hfs : vcostF fs ≤ f := by
      simp [vcostF] at h
      omega
    simp [encodeFieldList, decodeFList, decodeStr_encode, decodeV_encode v f _ hv,
      decodeFList_encode fs f rest hfs]

end

theorem one_le_encodeValue_length (v : Value) : 1 ≤ (encodeValue v).length := by
  cases v with
  | int n => by_cases hn : n < 0 <;> simp [encodeValue, hn]
  | _ => simp [encodeValue]

mutual

theorem vcost_le_length (v : Value) : vcost v ≤ (encodeValue v).length := by
  cases v with
  | null => simp [vcost, encodeValue]
  | bool b => simp [vcost, encodeValue]
  | int n => by_cases hn : n < 0 <;> simp [vcost, encodeValue, hn]
  | str s => simp [vcost, encodeValue]
  | bytes bs => simp [vcost, encodeValue]
  | arr vs =>
    have := vcostL_le_length vs
    simp [vcost, encodeValue]
    omega
  | map fs =>
    have := vcostF_le_length fs
    simp [vcost, encodeValue]
    omega

theorem vcostL_le_length (vs : List Value) :
    vcostL vs ≤ (encodeValueList vs).length + 1 := by
  cases vs with
  | nil => simp [vcostL, encodeValueList]
  | cons v vs =>
    have h1 := vcost_le_length v
    have h2 := vcostL_le_length vs
    have h3 := one_le_encodeValue_length v
    simp [vcostL, encodeValueList]
    omega

theorem vcostF_le_length (fs : List (String × Value)) :
    vcostF fs ≤ (encodeFieldList fs).length + 1 := by
  cases fs with
  | nil => simp [vcostF, encodeFieldList]
  | cons kv fs =>
    match kv with
    | (k, v) =>
      have h1 := vcost_le_length v
      have h2 := vcostF_le_length fs
      have h3 : 1 ≤ (encodeStr k).length := by simp [encodeStr]
      simp [vcostF, encodeFieldList]
      omega

end

/-- Round trip of the canonical codec: decoding an encoded value gives
the value back. -/
theorem decodeBlock_encodeValue (v : Value) : decodeBlock (encodeValue v) = some v := by
  have h : decodeV ((encodeValue v).length + 1) (encodeValue v ++ []) = some (v, []) :=
    decodeV_encode v _ [] (le_trans (vcost_le_length v) (Nat.le_succ _))
  simp at h
  simp [decodeBlock, h]

/-! ## Properties of the object operations -/

theorem lookupField_setField (fs : List (String × Value)) (k j : String) (v : Value) :
    lookupField (setField fs k v) j = if j = k then some v else lookupField fs j := by
  induction fs with
  | nil =>
    by_cases hj : j = k
    · subst hj
      simp [setField, lookupField]
    · have hj' : ¬ k = j := fun h => hj h.symm
      simp [setField, lookupField, hj, hj']
  | cons kv fs ih =>
    obtain ⟨k', v'⟩ := kv
    by_cases hk : k' = k <;> by_cases hj : j = k'
    · subst hk
      subst hj
      simp [setField, lookupField]
    · subst hk
      have hj' : ¬ k' = j := fun h => hj h.symm
      simp [setField, lookupField, hj, hj']
    · subst hj
      have hk' : ¬ j = k := fun h => hk h
      simp [setField, lookupField, hk, hk']
    · have hj' : ¬ k' = j := fun h => hj h.symm
      simp [setField, lookupField, hk, hj', ih]

theorem lookupField_deleteField (fs : List (String × Value)) (k j : String) :
    lookupField (deleteField fs k) j = if j = k then none else lookupField fs j := by
  induction fs with
  | nil => simp [deleteField, lookupField]
  | cons kv fs ih =>
    obtain ⟨k', v'⟩ := kv
    by_cases hk : k' = k <;> by_cases hj : j = k'
    · subst hk
      subst hj
      simp [deleteField, lookupField, ih]
    · subst hk
      have hj' : ¬ k' = j := fun h => hj h.symm
      simp [deleteField, lookupField, hj', ih]
    · subst hj
      have hk' : ¬ j = k := fun h => hk h
      simp [deleteField, lookupField, hk, hk', ih]
    · have hj' : ¬ k' = j := fun h => hj h.symm
      simp [deleteField, lookupField, hk, hj', ih]

theorem lookupField_copyFields (v : Value) (k : String) :
    lookupField (copyFields v) k = getProp v k := by
  cases v <;> simp [copyFields, getProp, lookupField]

/-! ## Claims -/

/-- C7: for every object, isEntry returns true if and only if all six
properties id, next, payload, v, clock and refs are defined on it,
regardless of any additional properties (key, sig and hash in particular
are not required). -/
theorem isEntry_six_fields (fs : List (String × Value)) :
    isEntry (some (.map fs)) = true ↔
      ((lookupField fs "id").isSome = true ∧ (lookupField fs "next").isSome = true ∧
       (lookupField fs "payload").isSome = true ∧ (lookupField fs "v").isSome = true ∧
       (lookupField fs "clock").isSome = true ∧ (lookupField fs "refs").isSome = true) := by
  simp [isEntry, truthy, getProp, and_assoc]

/-- C10: decode performs no structural validation: a canonical encoding
of an object missing most entry properties decodes successfully into an
object that carries a hash but fails isEntry. -/
theorem decode_no_validation :
    ∃ bs e, decode bs none none = .ok e ∧ (getProp e "hash").isSome = true ∧
      isEntry (some e) = false :=
  ⟨encodeValue (.map [("id", .str "x")]), _, rfl, rfl, rfl⟩

/-- C8 counterexample: an object whose hash property is defined (the
empty string) is judged unequal to itself, although both arguments are
defined, both hashes are defined and the hashes are equal; this refutes
the claimed characterization of isEqual. -/
theorem isEqual_claim_counterexample :
    getProp (.map [("hash", .str "")]) "hash" = some (.str "") ∧
      isEqual (some (.map [("hash", .str "")])) (some (.map [("hash", .str "")])) = false :=
  ⟨rfl, rfl⟩

/-- C8 amended: isEqual is false whenever either argument is undefined
or lacks a defined hash, and for defined arguments it is true exactly
when both are truthy, the hash of the first is defined and truthy
(non-empty), and the two hash values are strictly equal. -/
theorem isEqual_spec (a b : Value) :
    (isEqual (some a) (some b) = true ↔
      (truthy a = true ∧ truthy b = true ∧
        ∃ ha hb, getProp a "hash" = some ha ∧ getProp b "hash" = some hb ∧
          truthy ha = true ∧ veq ha hb = true)) ∧
    isEqual none (some b) = false ∧ isEqual (some a) none = false ∧
    (getProp a "hash" = none → isEqual (some a) (some b) = false) := by
  refine ⟨?_, rfl, rfl, ?_⟩
  · cases hha : getProp a "hash" with
    | none =>
      simp [isEqual, hha, truthyOpt]
    | some ha =>
      cases hhb : getProp b "hash" with
      | none =>
        simp [isEqual, hha, hhb, truthyOpt]
      | some hb =>
        constructor
        · intro h
          simp [isEqual, hha, hhb, truthyOpt] at h
          obtain ⟨⟨⟨h1, h2⟩, h3⟩, h4⟩ := h
          exact ⟨h1, h2, ha, hb, rfl, rfl, h3, h4⟩
        · rintro ⟨h1, h2, x, y, hx, hy, ht, he⟩
          injection hx with hx'
          injection hy with hy'
          subst hx'
          subst hy'
          simp [isEqual, hha, hhb, truthyOpt, h1, h2, ht, he]
  · intro hha
    simp [isEqual, hha, truthyOpt]

/-- C8 witness: two objects carrying the same non-empty hash are equal. -/
theorem isEqual_spec_witness :
    isEqual (some (.map [("hash", .str "zh")])) (some (.map [("hash", .str "zh")])) = true :=
  (isEqual_spec (.map [("hash", .str "zh")]) (.map [("hash", .str "zh")])).1.mpr
    ⟨rfl, rfl, .str "zh", .str "zh", rfl, rfl, rfl, rfl⟩

/-- C4: create fails with the argument-validation errors, in source
order, exactly when identity is nullish, or id is nullish, or payload is
nullish, or the defaulted next argument is not an array; the outcome is
the same for every clock provider, encrypt callback and signer, because
the checks precede every collaborator call, and when no condition holds
the error branch is not taken. -/
theorem create_validation (cp : String → Value) (ident : Option Identity)
    (id payload : Option Value) (fn : Option (List Nat → List Nat))
    (clock next refs : Option Value) :
    (ident = none → create cp ident id payload fn clock next refs = .error .identityRequired) ∧
    (ident ≠ none → isNullish id = true →
      create cp ident id payload fn clock next refs = .error .idRequired) ∧
    (ident ≠ none → isNullish id = false → isNullish payload = true →
      create cp ident id payload fn clock next refs = .error .payloadRequired) ∧
    (ident ≠ none → isNullish id = false → isNullish payload = false →
      (next.getD (.arr [])).isArr = false →
      create cp ident id payload fn clock next refs = .error .nextNotArray) ∧
    (ident ≠ none → isNullish id = false → isNullish payload = false →
      (next.getD (.arr [])).isArr = true →
      (create cp ident id payload fn clock next refs).isOk = true) := by
  refine ⟨?_, ?_, ?_, ?_, ?_⟩
  · intro h
    subst h
    simp [create]
  · intro h hid
    obtain ⟨i, rfl⟩ := Option.ne_none_iff_exists.mp h
    simp [create, hid]
  · intro h hid hpl
    obtain ⟨i, rfl⟩ := Option.ne_none_iff_exists.mp h
    simp [create, hid, hpl]
  · intro h hid hpl hnx
    obtain ⟨i, rfl⟩ := Option.ne_none_iff_exists.mp h
    simp [create, hid, hpl, hnx]
  · intro h hid hpl hnx
    obtain ⟨i, rfl⟩ := Option.ne_none_iff_exists.mp h
    simp [create, hid, hpl, hnx, Except.isOk, Except.toBool]

/-- C4 witness: valid arguments do not take the error branch. -/
theorem create_validation_witness :
    (create (fun _ => .int 1) (some ⟨"pk", "ih", fun _ => "sg"⟩) (some (.str "log"))
      (some (.str "data")) none none none none).isOk = true :=
  (create_validation (fun _ => .int 1) (some ⟨"pk", "ih", fun _ => "sg"⟩) (some (.str "log"))
      (some (.str "data")) none none none none).2.2.2.2
    (by simp) rfl rfl rfl

/-- C5 counterexample: an entry whose key property is present but holds
the falsy empty string makes verify throw, although the identity
provider is present, isEntry holds, and key and sig are both present;
this refutes the claim that errors arise exactly when key or sig is
absent. -/
theorem verify_claim_counterexample :
    isEntry (some (Value.map [("id", .int 1), ("next", .arr []), ("payload", .int 1),
        ("v", .int 2), ("clock", .int 1), ("refs", .arr []), ("key", .str ""),
        ("sig", .str "s")])) = true ∧
    (getProp (Value.map [("id", .int 1), ("next", .arr []), ("payload", .int 1),
        ("v", .int 2), ("clock", .int 1), ("refs", .arr []), ("key", .str ""),
        ("sig", .str "s")]) "key").isSome = true ∧
    (getProp (Value.map [("id", .int 1), ("next", .arr []), ("payload", .int 1),
        ("v", .int 2), ("clock", .int 1), ("refs", .arr []), ("key", .str ""),
        ("sig", .str "s")]) "sig").isSome = true ∧
    verify (some ⟨fun _ _ _ => true⟩)
      (some (Value.map [("id", .int 1), ("next", .arr []), ("payload", .int 1),
        ("v", .int 2), ("clock", .int 1), ("refs", .arr []), ("key", .str ""),
        ("sig", .str "s")])) = .error .noKey :=
  ⟨rfl, rfl, rfl, rfl⟩

/-- C5 amended: verify throws a structural error exactly when the
identities argument is missing, or isEntry fails, or the key property is
falsy (absent or a falsy value such as the empty string), or the sig
property is falsy; under the negation of all four conditions it never
throws and returns the boolean verdict of the identities system, so a
mismatching signature is the value false rather than an error. -/
theorem verify_error_conditions (ids : Identities) (entry : Option Value) :
    (verify none entry = .error .identitiesRequired) ∧
    (isEntry entry = false → verify (some ids) entry = .error .invalidEntry) ∧
    (∀ ev, entry = some ev → isEntry entry = true →
      truthyOpt (getProp ev "key") = false →
      verify (some ids) entry = .error .noKey) ∧
    (∀ ev, entry = some ev → isEntry entry = true →
      truthyOpt (getProp ev "key") = true → truthyOpt (getProp ev "sig") = false →
      verify (some ids) entry = .error .noSig) ∧
    (∀ ev, entry = some ev → isEntry entry = true →
      truthyOpt (getProp ev "key") = true → truthyOpt (getProp ev "sig") = true →
      (verify (some ids) entry).isOk = true) := by
  refine ⟨rfl, ?_, ?_, ?_, ?_⟩
  · intro h
    simp [verify, h]
  · rintro ev rfl h hk
    simp [verify, h, hk]
  · rintro ev rfl h hk hs
    simp [verify, h, hk, hs]
  · rintro ev rfl h hk hs
    simp [verify, h, hk, hs, Except.isOk, Except.toBool]

/-- C5 witness: on a well-formed entry with truthy key and sig, verify
returns a boolean without throwing. -/
theorem verify_error_conditions_witness :
    (verify (some ⟨fun _ _ _ => false⟩)
      (some (Value.map [("id", .int 1), ("next", .arr []), ("payload", .int 1),
        ("v", .int 2), ("clock", .int 1), ("refs", .arr []), ("key", .str "pk"),
        ("sig", .str "s")]))).isOk = true :=
  (verify_error_conditions ⟨fun _ _ _ => false⟩
      (some (Value.map [("id", .int 1), ("next", .arr []), ("payload", .int 1),
        ("v", .int 2), ("clock", .int 1), ("refs", .arr []), ("key", .str "pk"),
        ("sig", .str "s")]))).2.2.2.2 _ rfl rfl rfl rfl

/-- C6: decode is all-or-nothing.  Entry-level decryption failures
(undecodable outer bytes, or a failing decryptEntryFn) yield the
could-not-decrypt-entry error for every payload callback; payload-level
decryption failures (a failing decryptPayloadFn, or undecodable
decrypted payload bytes) yield the could-not-decrypt-payload error, with
or without an entry-level layer; errors carry no entry, so no partially
decoded or partially decrypted entry is ever returned. -/
theorem decode_failure_modes (bytes : List Nat) (df pf : Value → Option (List Nat)) :
    (decodeBlock bytes = none →
      ∀ pfO, decode bytes (some df) pfO = .error .couldNotDecryptEntry) ∧
    (∀ v, decodeBlock bytes = some v → df v = none →
      ∀ pfO, decode bytes (some df) pfO = .error .couldNotDecryptEntry) ∧
    (∀ entryV c, decodeBlock bytes = some entryV → getProp entryV "payload" = some c →
      pf c = none → decode bytes none (some pf) = .error .couldNotDecryptPayload) ∧
    (∀ entryV c pb, decodeBlock bytes = some entryV → getProp entryV "payload" = some c →
      pf c = some pb → decodeBlock pb = none →
      decode bytes none (some pf) = .error .couldNotDecryptPayload) ∧
    (∀ v b2 entryV c, decodeBlock bytes = some v → df v = some b2 →
      decodeBlock b2 = some entryV → getProp entryV "payload" = some c → pf c = none →
      decode bytes (some df) (some pf) = .error .couldNotDecryptPayload) := by
  refine ⟨?_, ?_, ?_, ?_, ?_⟩
  · intro h pfO
    simp [decode, h]
  · intro v hv hdf pfO
    simp [decode, hv, hdf]
  · intro entryV c he hc hpf
    simp [decode, he, hc, hpf]
  · intro entryV c pb he hc hpf hpb
    simp [decode, he, hc, hpf, hpb]
  · intro v b2 entryV c hv hdf he hc hpf
    simp [decode, hv, hdf, he, hc, hpf]

/-- C6 witness: empty bytes are not a canonical encoding, so decoding
them under an entry-decryption layer fails with the entry error. -/
theorem decode_failure_modes_witness :
    decode [] (some fun _ => some []) none = .error .couldNotDecryptEntry :=
  (decode_failure_modes [] (fun _ => some []) (fun _ => none)).1 rfl none

/-- C3: without encryption callbacks, decode of the bytes of encode
reproduces every property of the entry except the stripped hash and
payload cache (in particular all signed fields and key, identity and
sig), and sets the hash property of the decoded entry to exactly the
hash returned by encode. -/
theorem encode_decode_roundtrip (e : Value) (h : String) (bs : List Nat) (d : Value)
    (henc : encode e none none = some (h, bs)) (hdec : decode bs none none = .ok d) :
    (∀ k, k ≠ "hash" → k ≠ "_payload" → getProp d k = getProp e k) ∧
    getProp d "hash" = some (.str h) := by
  have hfs2 : encode e none none =
      some (cidOf (encodeValue (.map (deleteField (deleteField (copyFields e) "_payload") "hash"))),
        encodeValue (.map (deleteField (deleteField (copyFields e) "_payload") "hash"))) := rfl
  rw [hfs2] at henc
  simp only [Option.some.injEq, Prod.mk.injEq] at henc
  obtain ⟨hh, hbs⟩ := henc
  subst hh
  subst hbs
  have hdec2 : decode
      (encodeValue (.map (deleteField (deleteField (copyFields e) "_payload") "hash"))) none none =
      .ok (.map (setField (deleteField (deleteField (copyFields e) "_payload") "hash") "hash"
        (.str (cidOf (encodeValue
          (.map (deleteField (deleteField (copyFields e) "_payload") "hash"))))))) := by
    simp [decode, decodeBlock_encodeValue, copyFields]
  rw [hdec2] at hdec
  simp only [Except.ok.injEq] at hdec
  subst hdec
  constructor
  · intro k hk1 hk2
    simp [getProp, lookupField_setField, hk1, lookupField_deleteField, hk2, lookupField_copyFields]
  · simp [getProp, lookupField_setField]

/-- C3 witness: the round trip evaluated on one concrete entry. -/
theorem encode_decode_roundtrip_witness :
    getProp ((decode ((encode (.map [("id", .str "l"), ("payload", .str "p"), ("next", .arr []),
        ("refs", .arr []), ("clock", .int 3), ("v", .int 2), ("key", .str "pk"),
        ("identity", .str "ih"), ("sig", .str "sg")]) none none).getD ("", [])).2
        none none).toOption.getD .null) "payload" =
      getProp (Value.map [("id", .str "l"), ("payload", .str "p"), ("next", .arr []),
        ("refs", .arr []), ("clock", .int 3), ("v", .int 2), ("key", .str "pk"),
        ("identity", .str "ih"), ("sig", .str "sg")]) "payload" :=
  (encode_decode_roundtrip
      (.map [("id", .str "l"), ("payload", .str "p"), ("next", .arr []),
        ("refs", .arr []), ("clock", .int 3), ("v", .int 2), ("key", .str "pk"),
        ("identity", .str "ih"), ("sig", .str "sg")])
      ((encode (.map [("id", .str "l"), ("payload", .str "p"), ("next", .arr []),
        ("refs", .arr []), ("clock", .int 3), ("v", .int 2), ("key", .str "pk"),
        ("identity", .str "ih"), ("sig", .str "sg")]) none none).getD ("", [])).1
      ((encode (.map [("id", .str "l"), ("payload", .str "p"), ("next", .arr []),
        ("refs", .arr []), ("clock", .int 3), ("v", .int 2), ("key", .str "pk"),
        ("identity", .str "ih"), ("sig", .str "sg")]) none none).getD ("", [])).2
      ((decode ((encode (.map [("id", .str "l"), ("payload", .str "p"), ("next", .arr []),
        ("refs", .arr []), ("clock", .int 3), ("v", .int 2), ("key", .str "pk"),
        ("identity", .str "ih"), ("sig", .str "sg")]) none none).getD ("", [])).2
        none none).toOption.getD .null)
      rfl rfl).1 "payload" (by decide) (by decide)

/-- C1 counterexample: a non-null identity whose public key is the falsy
empty string makes verify throw a key error on the entry that create
returned, instead of returning true, although the identities system
accepts every signature; this refutes the claim as stated. -/
theorem verify_create_counterexample :
    ∃ e, create (fun _ => .int 1) (some ⟨"", "ih", fun _ => "sg"⟩) (some (.str "log"))
        (some (.str "data")) none none none none = .ok e ∧
      verify (some ⟨fun _ _ _ => true⟩) (some e) = .error .noKey :=
  ⟨_, rfl, rfl⟩

/-- C1 amended: for every valid input (identity, id and payload
non-nullish, next an array) and an identity system that accepts its own
signatures, provided additionally that the identity public key and the
produced signatures are truthy (non-empty) strings, verifying the entry
returned by create against the same identity system returns true, with
no payload encryption involved. -/
theorem verify_create (cp : String → Value) (ident : Identity) (ids : Identities)
    (hsig : ∀ bs, ids.verify (.str (ident.sign bs)) (.str ident.publicKey) bs = true)
    (hpk : ident.publicKey ≠ "")
    (hsgn : ∀ bs, ident.sign bs ≠ "")
    (idv plv : Value) (hid : isNullish (some idv) = false)
    (hpl : isNullish (some plv) = false)
    (clock next refs : Option Value) (hnext : (next.getD (.arr [])).isArr = true)
    (e : Value)
    (hc : create cp (some ident) (some idv) (some plv) none clock next refs = .ok e) :
    verify (some ids) (some e) = .ok true := by
  simp [create, hid, hpl, hnext] at hc
  subst hc
  simp [verify, isEntry, getProp, lookupField, setField, truthy, truthyOpt, orTruthy,
    bne_iff_ne, hpk, hsgn, hsig]

/-- C1 witness: a concrete identity and identities pair for which verify
of create returns true. -/
theorem verify_create_witness :
    verify
      (some ⟨fun s k _ => veq k (.str "pk1") && veq s (.str "sg1")⟩)
      (some ((create (fun pk => .map [("id", .str pk), ("time", .int 0)])
        (some ⟨"pk1", "ih1", fun _ => "sg1"⟩)
        (some (.str "log1")) (some (.str "hello"))
        none none none none).toOption.getD .null)) = .ok true :=
  verify_create (fun pk => .map [("id", .str pk), ("time", .int 0)])
    ⟨"pk1", "ih1", fun _ => "sg1"⟩
    ⟨fun s k _ => veq k (.str "pk1") && veq s (.str "sg1")⟩
    (fun _ => by simp [veq])
    (by decide) (fun _ => by show ("sg1" : String) ≠ ""; decide)
    (.str "log1") (.str "hello") rfl rfl
    none none none rfl _ rfl

/-- Sample payload encryption callback used by the C2 theorems. -/
def fW : List Nat → List Nat := fun bs => 0 :: bs

/-- Matching payload decryption callback for `fW`. -/
def gW : Value → Option (List Nat)
  | .bytes (0 :: bs) => some bs
  | _ => none

theorem gW_matches_fW (bs : List Nat) : gW (.bytes (fW bs)) = some bs := rfl

/-- C2 counterexample: an entry created with a payload encryption
callback (for which a matching decryption callback exists, see
`gW_matches_fW`) by a non-null identity whose public key is the falsy
empty string makes verify throw instead of succeeding, although the
identities system accepts every signature; this refutes the claim as
stated. -/
theorem encrypted_roundtrip_counterexample :
    ∃ e, create (fun _ => .int 1) (some ⟨"", "ih", fun _ => "sg"⟩) (some (.str "log"))
        (some (.str "data")) (some fW) none none none = .ok e ∧
      verify (some ⟨fun _ _ _ => true⟩) (some e) = .error .noKey :=
  ⟨_, rfl, rfl⟩

/-- C2 amended: for an entry created with payload encryption callback f
and matching decryption callback g, under the same validity conditions
as the amended C1 (truthy public key and signatures), the encode bytes
decode back to an entry whose visible payload is the original
plaintext, and verify succeeds on both the created and the decoded
entry, because the signing snapshot uses the cached ciphertext in place
of the visible plaintext payload. -/
theorem encrypted_roundtrip (cp : String → Value) (ident : Identity) (ids : Identities)
    (hsig : ∀ bs, ids.verify (.str (ident.sign bs)) (.str ident.publicKey) bs = true)
    (hpk : ident.publicKey ≠ "")
    (hsgn : ∀ bs, ident.sign bs ≠ "")
    (f : List Nat → List Nat) (g : Value → Option (List Nat))
    (hfg : ∀ bs, g (.bytes (f bs)) = some bs)
    (idv plv : Value) (hid : isNullish (some idv) = false)
    (hpl : isNullish (some plv) = false)
    (clock next refs : Option Value) (hnext : (next.getD (.arr [])).isArr = true)
    (e : Value)
    (hc : create cp (some ident) (some idv) (some plv) (some f) clock next refs = .ok e)
    (h : String) (bs : List Nat) (henc : encode e none (some f) = some (h, bs))
    (d : Value) (hdec : decode bs none (some g) = .ok d) :
    verify (some ids) (some e) = .ok true ∧ getProp d "payload" = some plv ∧
      verify (some ids) (some d) = .ok true := by
  simp [create, hid, hpl, hnext] at hc
  subst hc
  simp [encode, copyFields, setField, deleteField, lookupField] at henc
  obtain ⟨hh, hbs⟩ := henc
  subst hh
  subst hbs
  simp [decode, decodeBlock_encodeValue, hfg, getProp, lookupField, setField,
    copyFields] at hdec
  subst hdec
  refine ⟨?_, ?_, ?_⟩
  · simp [verify, isEntry, getProp, lookupField, setField, truthy, truthyOpt, orTruthy,
      bne_iff_ne, hpk, hsgn, hsig]
  · simp [getProp, lookupField]
  · simp [verify, isEntry, getProp, lookupField, setField, truthy, truthyOpt, orTruthy,
      bne_iff_ne, hpk, hsgn, hsig]

/-- C2 witness: the encrypted round trip evaluated on one concrete
entry restores the plaintext payload. -/
theorem encrypted_roundtrip_witness :
    getProp ((decode ((encode ((create (fun pk => .map [("id", .str pk), ("time", .int 0)])
          (some ⟨"pk1", "ih1", fun _ => "sg1"⟩) (some (.str "log1")) (some (.str "hello"))
          (some fW) none none none).toOption.getD .null) none (some fW)).getD ("", [])).2
        none (some gW)).toOption.getD .null) "payload" = some (.str "hello") :=
  (encrypted_roundtrip (fun pk => .map [("id", .str pk), ("time", .int 0)])
    ⟨"pk1", "ih1", fun _ => "sg1"⟩
    ⟨fun s k _ => veq k (.str "pk1") && veq s (.str "sg1")⟩
    (fun _ => by simp [veq])
    (by decide) (fun _ => by show ("sg1" : String) ≠ ""; decide)
    fW gW gW_matches_fW
    (.str "log1") (.str "hello") rfl rfl
    none none none rfl
    _ rfl
    ((encode ((create (fun pk => .map [("id", .str pk), ("time", .int 0)])
        (some ⟨"pk1", "ih1", fun _ => "sg1"⟩) (some (.str "log1")) (some (.str "hello"))
        (some fW) none none none).toOption.getD .null) none (some fW)).getD ("", [])).1
    ((encode ((create (fun pk => .map [("id", .str pk), ("time", .int 0)])
        (some ⟨"pk1", "ih1", fun _ => "sg1"⟩) (some (.str "log1")) (some (.str "hello"))
        (some fW) none none none).toOption.getD .null) none (some fW)).getD ("", [])).2
    rfl
    ((decode ((encode ((create (fun pk => .map [("id", .str pk), ("time", .int 0)])
        (some ⟨"pk1", "ih1", fun _ => "sg1"⟩) (some (.str "log1")) (some (.str "hello"))
        (some fW) none none none).toOption.getD .null) none (some fW)).getD ("", [])).2
      none (some gW)).toOption.getD .null)
    rfl).2.1

end Oplog
